import Mathlib

/-!
Verification of `scripts/update_registry.py`.

The Python script scans `magic/upload/` for `<name>_<buildid>.magic` archive
files, reads an embedded `metadata.json` from each, computes a SHA-256
checksum, assembles a registry entry and upserts it into the JSON registry
`magic/manifest.json`, which is sorted by `(name, version)` and rewritten.

This file gives a shallow embedding of that script and proves / refutes the
specification claims about it.
-/

/-- JSON values, as produced by `json.loads`.  Numbers are modelled as
integers (the metadata exercised by the claims uses no floats). -/
inductive Json where
  | null : Json
  | bool : Bool → Json
  | num : Int → Json
  | str : String → Json
  | arr : List Json → Json
  | obj : List (String × Json) → Json

mutual

/-- Structural equality test on JSON values; models Python `==` on the values
`json.loads` can return (for the fragment covered by `Json`). -/
def beqJ : Json → Json → Bool
  | .null, .null => true
  | .bool a, .bool b => a == b
  | .num a, .num b => a == b
  | .str a, .str b => a == b
  | .arr as, .arr bs => beqJA as bs
  | .obj as, .obj bs => beqJO as bs
  | _, _ => false

def beqJA : List Json → List Json → Bool
  | [], [] => true
  | a :: as, b :: bs => beqJ a b && beqJA as bs
  | _, _ => false

def beqJO : List (String × Json) → List (String × Json) → Bool
  | [], [] => true
  | (k₁, v₁) :: as, (k₂, v₂) :: bs => k₁ == k₂ && beqJ v₁ v₂ && beqJO as bs
  | _, _ => false

end

/-! ### Python value helpers -/

/-- Python truthiness of a JSON value (`bool(x)`). -/
def pyTruthy : Json → Bool
  | .null => false
  | .bool b => b
  | .num n => n != 0
  | .str s => s != ""
  | .arr xs => !xs.isEmpty
  | .obj kvs => !kvs.isEmpty

/-- First-match association lookup; object key lists built by the parser or
by hand have one occurrence per key, as Python dicts do. -/
def assocLookup (k : String) : List (String × Json) → Option Json
  | [] => none
  | (k₁, v) :: rest => if k₁ = k then some v else assocLookup k rest

/-- Python `d.get(k)` on a JSON object (returns `None` when absent; `d.get`
on a non-dict raises, which never happens on the paths modelled here). -/
def pyGet (j : Json) (k : String) : Option Json :=
  match j with
  | .obj kvs => assocLookup k kvs
  | _ => none

/-- Python `d.get(k, default)`. -/
def pyGetD (j : Json) (k : String) (d : Json) : Json :=
  match pyGet j k with
  | some v => v
  | none => d

/-! ### A model of `json.loads`

A recursive-descent parser over the character list, fuelled so that every
function is structurally recursive (and hence reduces in the kernel).
It covers the JSON fragment relevant here: `null`, booleans, integers
(no floats — rejected like any other malformed input), strings with the
standard escapes, arrays and objects.  Duplicate object keys keep the last
value, as `json.loads` does. -/

def isJsonWs (c : Char) : Bool :=
  c = ' ' || c = '\t' || c = '\n' || c = '\r'

def skipWs (cs : List Char) : List Char :=
  cs.dropWhile isJsonWs

def lbrace : Char := Char.ofNat 123

def rbrace : Char := Char.ofNat 125

def hexDigVal (c : Char) : Option Nat :=
  if '0' ≤ c ∧ c ≤ '9' then some (c.toNat - '0'.toNat)
  else if 'a' ≤ c ∧ c ≤ 'f' then some (c.toNat - 'a'.toNat + 10)
  else if 'A' ≤ c ∧ c ≤ 'F' then some (c.toNat - 'A'.toNat + 10)
  else none

/-- Parse the body of a JSON string after the opening quote. -/
def parseStrBody (acc : List Char) : List Char → Option (String × List Char)
  | [] => none
  | c :: rest =>
    if c = '"' then some (String.mk acc.reverse, rest)
    else if c = '\\' then
      match rest with
      | [] => none
      | e :: rest₂ =>
        if e = '"' then parseStrBody ('"' :: acc) rest₂
        else if e = '\\' then parseStrBody ('\\' :: acc) rest₂
        else if e = '/' then parseStrBody ('/' :: acc) rest₂
        else if e = 'n' then parseStrBody ('\n' :: acc) rest₂
        else if e = 't' then parseStrBody ('\t' :: acc) rest₂
        else if e = 'r' then parseStrBody ('\r' :: acc) rest₂
        else if e = 'b' then parseStrBody ('\x08' :: acc) rest₂
        else if e = 'f' then parseStrBody ('\x0c' :: acc) rest₂
        else if e = 'u' then
          match rest₂ with
          | h₁ :: h₂ :: h₃ :: h₄ :: rest₃ =>
            match hexDigVal h₁, hexDigVal h₂, hexDigVal h₃, hexDigVal h₄ with
            | some a, some b, some c₁, some d =>
              parseStrBody (Char.ofNat (a * 4096 + b * 256 + c₁ * 16 + d) :: acc) rest₃
            | _, _, _, _ => none
          | _ => none
        else none
    else if c.toNat < 32 then none
    else parseStrBody (c :: acc) rest

/-- Parse a JSON integer (strict grammar: optional minus, no leading zeros;
a fraction or exponent makes the input fall outside the modelled fragment). -/
def parseNum (cs : List Char) : Option (Json × List Char) :=
  let signed := match cs with
    | '-' :: r => (true, r)
    | _ => (false, cs)
  let ds := signed.2.takeWhile Char.isDigit
  let rest := signed.2.dropWhile Char.isDigit
  if ds = [] then none
  else if ds.length > 1 ∧ ds.headD '0' = '0' then none
  else
    match rest with
    | '.' :: _ => none
    | 'e' :: _ => none
    | 'E' :: _ => none
    | _ =>
      let v : Nat := ds.foldl (fun a c => a * 10 + (c.toNat - 48)) 0
      some (.num (if signed.1 then -(v : Int) else (v : Int)), rest)

/-- Python dict insertion: an existing key keeps its position and gets the
new value, a new key is appended. -/
def dictInsert : List (String × Json) → String → Json → List (String × Json)
  | [], k, v => [(k, v)]
  | (k₁, v₁) :: rest, k, v =>
    if k₁ = k then (k, v) :: rest else (k₁, v₁) :: dictInsert rest k v

mutual

def parseVal : Nat → List Char → Option (Json × List Char)
  | 0, _ => none
  | fuel + 1, cs =>
    match cs with
    | 'n' :: 'u' :: 'l' :: 'l' :: r => some (.null, r)
    | 't' :: 'r' :: 'u' :: 'e' :: r => some (.bool true, r)
    | 'f' :: 'a' :: 'l' :: 's' :: 'e' :: r => some (.bool false, r)
    | '"' :: r =>
      match parseStrBody [] r with
      | some (s, r₂) => some (.str s, r₂)
      | none => none
    | '[' :: r =>
      match skipWs r with
      | ']' :: r₂ => some (.arr [], r₂)
      | r₁ => parseElems fuel r₁ []
    | c :: r =>
      if c = lbrace then
        match skipWs r with
        | c₂ :: r₂ => if c₂ = rbrace then some (.obj [], r₂) else parseMembers fuel (c₂ :: r₂) []
        | [] => none
      else parseNum (c :: r)
    | [] => none

def parseElems : Nat → List Char → List Json → Option (Json × List Char)
  | 0, _, _ => none
  | fuel + 1, cs, acc =>
    match parseVal fuel cs with
    | some (v, r) =>
      match skipWs r with
      | ',' :: r₂ => parseElems fuel (skipWs r₂) (v :: acc)
      | ']' :: r₂ => some (.arr (v :: acc).reverse, r₂)
      | _ => none
    | none => none

def parseMembers : Nat → List Char → List (String × Json) → Option (Json × List Char)
  | 0, _, _ => none
  | fuel + 1, cs, acc =>
    match cs with
    | '"' :: r =>
      match parseStrBody [] r with
      | some (k, r₁) =>
        match skipWs r₁ with
        | ':' :: r₂ =>
          match parseVal fuel (skipWs r₂) with
          | some (v, r₃) =>
            match skipWs r₃ with
            | ',' :: r₄ => parseMembers fuel (skipWs r₄) (dictInsert acc k v)
            | c :: r₄ => if c = rbrace then some (.obj (dictInsert acc k v), r₄) else none
            | [] => none
          | none => none
        | _ => none
      | none => none
    | _ => none

end

/-- Model of `json.loads`: parse one value, allowing surrounding whitespace,
requiring the whole input to be consumed. -/
def jsonParse (s : String) : Option Json :=
  let cs := skipWs s.data
  match parseVal (cs.length + 1) cs with
  | some (v, r) => if skipWs r = [] then some v else none
  | none => none

/-! ### Registry Store: `load_registry` (update_registry.py lines 50-66)

The registry file is modelled by the observable states the Python code
distinguishes: absent (`REGISTRY_PATH.exists()` false), readable with some
text content, or failing with an I/O-style exception while being opened,
read or decoded (the `except Exception` arm).  The returned pair is the
catalog together with whether a warning line was printed. -/

inductive FileState where
  | absent : FileState
  | ioError : FileState
  | present : String → FileState

def emptyRegistry : Json := .obj [("models", .arr [])]

/-- Python `str.strip()` (ASCII whitespace suffices for the inputs here). -/
def isPyWs (c : Char) : Bool :=
  c = ' ' || c = '\t' || c = '\n' || c = '\r' || c = '\x0b' || c = '\x0c'

def pyStrip (s : String) : String :=
  String.mk (((s.data.dropWhile isPyWs).reverse.dropWhile isPyWs).reverse)

def load_registry : FileState → Json × Bool
  | .absent => (emptyRegistry, false)
  | .ioError => (emptyRegistry, true)
  | .present s =>
    let c := pyStrip s
    if c = "" then (emptyRegistry, true)
    else
      match jsonParse c with
      | some j => (j, false)
      | none => (emptyRegistry, true)

/-! ### Dynamic (untyped) views of `upsert_model` and `save_registry`

`load_registry` performs no shape validation, so the value it hands to
`upsert_model` / `save_registry` can be any JSON value.  These definitions
model the Python-level behaviour of the first operations those functions
perform on it, with the exceptions CPython raises. -/

inductive PyExc where
  | keyError : PyExc
  | typeError : PyExc
  | attributeError : PyExc
  deriving DecidableEq

/-- Python subscript `x["models"]`: dict lookup (KeyError when missing);
string subscripts on lists/strings and subscripting other values raise
TypeError. -/
def pySubscript (j : Json) (k : String) : Except PyExc Json :=
  match j with
  | .obj kvs =>
    match assocLookup k kvs with
    | some v => Except.ok v
    | none => Except.error .keyError
  | _ => Except.error .typeError

/-- Python `m.get(k)` where `m` may be any value: non-dicts have no `.get`
attribute. -/
def pyGetAttr (j : Json) (k : String) : Except PyExc (Option Json) :=
  match j with
  | .obj kvs => Except.ok (assocLookup k kvs)
  | _ => Except.error .attributeError

/-- Python `==` on optional JSON values (`None == None` is `True`). -/
def optBeqJ : Option Json → Option Json → Bool
  | none, none => true
  | some a, some b => beqJ a b
  | _, _ => false

/-- The loop body of `upsert_model` (lines 74-82) over an arbitrary
`registry["models"]` list: replace the first element whose `name` and
`version` match the new entry, else append. -/
def pyUpsertList (e : Json) : List Json → Except PyExc (List Json)
  | [] => Except.ok [e]
  | m :: rest => do
    let mn ← pyGetAttr m "name"
    let en ← pyGetAttr e "name"
    let mv ← pyGetAttr m "version"
    let ev ← pyGetAttr e "version"
    if optBeqJ mn en && optBeqJ mv ev then
      Except.ok (e :: rest)
    else do
      let rest' ← pyUpsertList e rest
      Except.ok (m :: rest')

/-- `upsert_model(registry, e)` on an arbitrary loaded value: the first
operation is `registry["models"]` and iteration over the result.  Iterating
a string or a dict yields characters or keys, whose `.get` (or, for the
empty ones, the final `.append`) raises AttributeError; the remaining
values are not iterable at all (TypeError). -/
def pyUpsertModel (registry e : Json) : Except PyExc Json :=
  match pySubscript registry "models" with
  | Except.error exc => Except.error exc
  | Except.ok (.arr xs) =>
    match pyUpsertList e xs with
    | Except.ok xs' => Except.ok (.obj [("models", .arr xs')])
    | Except.error exc => Except.error exc
  | Except.ok (.str _) => Except.error .attributeError
  | Except.ok (.obj _) => Except.error .attributeError
  | Except.ok _ => Except.error .typeError

/-- The first operation of `save_registry` (line 70):
`registry["models"].sort(...)` — the subscript, then the `.sort` attribute,
which only lists have. -/
def pySaveModelsAccess (registry : Json) : Except PyExc Json :=
  match pySubscript registry "models" with
  | Except.error exc => Except.error exc
  | Except.ok (.arr xs) => Except.ok (.arr xs)
  | Except.ok _ => Except.error .attributeError

/-! ### The version-mismatch guard (lines 109-113)

`version = infos.get("version", "unknown")` followed by
`if infos.get("version") and infos["version"] != version:`. -/

def versionMismatchWarn (infos : Json) : Bool :=
  let version := pyGetD infos "version" (.str "unknown")
  match pyGet infos "version" with
  | none => false
  | some v => pyTruthy v && !(beqJ v version)

/-! ### Checksum Computer: SHA-256 (`sha256_file`, lines 22-27)

A complete SHA-256 over byte lists (bytes as `Nat < 256`, words as
`Nat < 2^32` with explicit reduction).  `hashlib`'s incremental interface is
modelled by its documented contract: the digest of a sequence of `update`
calls is the digest of the concatenation of the fed chunks. -/

def add32 (a b : Nat) : Nat := (a + b) % 4294967296

def rotr32 (n x : Nat) : Nat := x / 2 ^ n + x % 2 ^ n * 2 ^ (32 - n)

def not32 (x : Nat) : Nat := 4294967295 - x

def chF (x y z : Nat) : Nat := (x &&& y) ^^^ (not32 x &&& z)

def majF (x y z : Nat) : Nat := (x &&& y) ^^^ (x &&& z) ^^^ (y &&& z)

def bigSigma0 (x : Nat) : Nat := rotr32 2 x ^^^ rotr32 13 x ^^^ rotr32 22 x

def bigSigma1 (x : Nat) : Nat := rotr32 6 x ^^^ rotr32 11 x ^^^ rotr32 25 x

def smallSigma0 (x : Nat) : Nat := rotr32 7 x ^^^ rotr32 18 x ^^^ x / 8

def smallSigma1 (x : Nat) : Nat := rotr32 17 x ^^^ rotr32 19 x ^^^ x / 1024

/-- The 64 SHA-256 round constants (FIPS 180-4), written in decimal. -/
def sha256K : List Nat :=
  [1116352408, 1899447441, 3049323471, 3921009573, 961987163, 1508970993,
   2453635748, 2870763221, 3624381080, 310598401, 607225278, 1426881987,
   1925078388, 2162078206, 2614888103, 3248222580, 3835390401, 4022224774,
   264347078, 604807628, 770255983, 1249150122, 1555081692, 1996064986,
   2554220882, 2821834349, 2952996808, 3210313671, 3336571891, 3584528711,
   113926993, 338241895, 666307205, 773529912, 1294757372, 1396182291,
   1695183700, 1986661051, 2177026350, 2456956037, 2730485921, 2820302411,
   3259730800, 3345764771, 3516065817, 3600352804, 4094571909, 275423344,
   430227734, 506948616, 659060556, 883997877, 958139571, 1322822218,
   1537002063, 1747873779, 1955562222, 2024104815, 2227730452, 2361852424,
   2428436474, 2756734187, 3204031479, 3329325298]

structure Hash8 where
  a : Nat
  b : Nat
  c : Nat
  d : Nat
  e : Nat
  f : Nat
  g : Nat
  h : Nat

/-- The initial hash state (FIPS 180-4), written in decimal. -/
def sha256init : Hash8 :=
  ⟨1779033703, 3144134277, 1013904242, 2773480762, 1359893119, 2600822924, 528734635, 1541459225⟩

/-- Padding: a `0x80` byte, zeros to 56 mod 64, then the bit length as eight
big-endian bytes. -/
def sha256pad (msg : List Nat) : List Nat :=
  let len := msg.length
  msg ++ 128 :: List.replicate ((119 - len % 64) % 64) 0
      ++ (List.range 8).map (fun i => len * 8 / 2 ^ (8 * (7 - i)) % 256)

def blockWords (block : List Nat) : List Nat :=
  (List.range 16).map (fun i =>
    block.getD (4 * i) 0 * 16777216 + block.getD (4 * i + 1) 0 * 65536 +
      block.getD (4 * i + 2) 0 * 256 + block.getD (4 * i + 3) 0)

def schedule (ws : List Nat) : List Nat :=
  (List.range 48).foldl
    (fun w _ =>
      w ++ [add32 (add32 (smallSigma1 (w.getD (w.length - 2) 0)) (w.getD (w.length - 7) 0))
              (add32 (smallSigma0 (w.getD (w.length - 15) 0)) (w.getD (w.length - 16) 0))])
    ws

def compressBlock (st : Hash8) (block : List Nat) : Hash8 :=
  let w := schedule (blockWords block)
  let r := (List.range 64).foldl
    (fun s i =>
      let t1 := add32 s.h (add32 (bigSigma1 s.e)
        (add32 (chF s.e s.f s.g) (add32 (sha256K.getD i 0) (w.getD i 0))))
      let t2 := add32 (bigSigma0 s.a) (majF s.a s.b s.c)
      ⟨add32 t1 t2, s.a, s.b, s.c, add32 s.d t1, s.e, s.f, s.g⟩)
    st
  ⟨add32 st.a r.a, add32 st.b r.b, add32 st.c r.c, add32 st.d r.d,
   add32 st.e r.e, add32 st.f r.f, add32 st.g r.g, add32 st.h r.h⟩

def wordBE (w : Nat) : List Nat := [w / 16777216 % 256, w / 65536 % 256, w / 256 % 256, w % 256]

def sha256bytes (msg : List Nat) : List Nat :=
  let padded := sha256pad msg
  let final := (List.range (padded.length / 64)).foldl
    (fun st i => compressBlock st ((padded.drop (64 * i)).take 64)) sha256init
  wordBE final.a ++ wordBE final.b ++ wordBE final.c ++ wordBE final.d ++
    wordBE final.e ++ wordBE final.f ++ wordBE final.g ++ wordBE final.h

def hexChars : List Char := "0123456789abcdef".data

def hexDig (n : Nat) : Char := hexChars.getD n '0'

def bytesToHex (bs : List Nat) : String :=
  String.mk (bs.flatMap (fun b => [hexDig (b / 16 % 16), hexDig (b % 16)]))

/-- The one-pass digest of a full byte string, rendered in lowercase hex:
`hashlib.sha256(data).hexdigest()`. -/
def sha256hex (msg : List Nat) : String := bytesToHex (sha256bytes msg)

/-- The successive results of `f.read(1024 * 1024)` over the file content:
maximal 1 MiB chunks (the loop of lines 25-26 stops at `b""`). -/
def chunks1M (l : List Nat) : List (List Nat) :=
  if h : l.isEmpty then [] else l.take 1048576 :: chunks1M (l.drop 1048576)
termination_by l.length
decreasing_by
  have hl : l ≠ [] := by
    intro hnil
    rw [hnil] at h
    simp at h
  have hp : 0 < l.length := List.length_pos.mpr hl
  simp only [List.length_drop]
  omega

/-- `sha256_file` (lines 22-27): fold each chunk into the hash object, then
take the hex digest.  The hash object's state is the byte string fed so far;
`hexdigest` is the one-pass digest of that state. -/
def sha256_file (content : List Nat) : String :=
  sha256hex ((chunks1M content).foldl (fun fed chunk => fed ++ chunk) [])

/-! ### Filename Parser (`FILENAME_RE`, line 20)

`^(?P<name>[^_]+)_(?P<buildid>[A-Za-z0-9]+)\.magic$`: since the name group
cannot contain an underscore, a match decomposes the filename uniquely as
the part before the first underscore, the build id, and the literal suffix
`.magic`. -/

def parseFilename (s : String) : Option (String × String) :=
  let cs := s.data
  let nm := cs.takeWhile (fun c => c != '_')
  match cs.dropWhile (fun c => c != '_') with
  | [] => none
  | _ :: r =>
    if nm = [] then none
    else if r.length < 7 then none
    else
      let bid := r.take (r.length - 6)
      let suffix6 := r.drop (r.length - 6)
      if suffix6 = ['.', 'm', 'a', 'g', 'i', 'c'] ∧ bid.all Char.isAlphanum then
        some (String.mk nm, String.mk bid)
      else none

/-! ### Build-Type Classifier (`BUILD_MAP` / `parse_build_type`, lines 12-33) -/

def BUILD_MAP : List (Char × String) :=
  [('A', "stable"), ('B', "rc"), ('C', "beta"), ('D', "alpha"), ('F', "debug")]

def parse_build_type (build_id : String) : String :=
  match build_id.data.getLast? with
  | some c => (BUILD_MAP.lookup c.toUpper).getD ("unknown")
  | none => "unknown"

/-! ### Archive Metadata Reader (`read_model_infos_from_magic`, lines 35-48) -/

inductive ReadErr where
  | badZip : ReadErr
  | noMetadata : ReadErr
  | badJson : ReadErr
  deriving DecidableEq

/-- A `.magic` file as seen by `zipfile.ZipFile`: either not a valid zip
container, or a list of entries `(name, text content)` in enumeration
order. -/
inductive ZipState where
  | badZip : ZipState
  | entries : List (String × String) → ZipState

/-- `name.lower().endswith("metadata.json")`. -/
def isMetadataName (name : String) : Bool :=
  List.isSuffixOf ("metadata.json".data) (name.data.map Char.toLower)

def read_model_infos : ZipState → Except ReadErr Json
  | .badZip => Except.error .badZip
  | .entries l =>
    match l.find? (fun p => isMetadataName p.1) with
    | none => Except.error .noMetadata
    | some p =>
      match jsonParse p.2 with
      | some j => Except.ok j
      | none => Except.error .badJson

/-! ### `compatible_versions` normalization (lines 126-128) -/

/-- Python `a or b`. -/
def pyOrJ (a b : Json) : Json := if pyTruthy a then a else b

/-- `compat = infos.get("compatible_versions") or infos.get("compat") or []`
followed by `if isinstance(compat, str): compat = [compat]`. -/
def normalizeCompat (infos : Json) : Json :=
  let compat := pyOrJ (pyGetD infos "compatible_versions" .null)
    (pyOrJ (pyGetD infos "compat" .null) (.arr []))
  match compat with
  | .str s => .arr [.str s]
  | x => x

/-! ### Catalog Builder (`main`, lines 84-149) -/

/-- The environment-derived configuration, resolved once at process start
(`GITHUB_REPOSITORY` split into owner/repo, `DEFAULT_BRANCH`,
`DEV_SERVER_IP`/`DEV_SERVER_PORT`; an unset dev ip is the empty string,
falsy in the `if os.environ.get("DEV_SERVER_IP"):` test). -/
structure Config where
  owner : String
  repoName : String
  branch : String
  devIp : String
  devPort : String

def downloadUrl (cfg : Config) (fname : String) : String :=
  if cfg.devIp != "" then
    "http://" ++ cfg.devIp ++ ":" ++ cfg.devPort ++ "/magic/upload/" ++ fname
  else
    "https://raw.githubusercontent.com/" ++ cfg.owner ++ "/" ++ cfg.repoName ++ "/"
      ++ cfg.branch ++ "/magic/upload/" ++ fname

/-- A candidate file from `DIST_DIR.glob("*.magic")`: its name, its zip
container state, and its raw byte content (`stat().st_size` is the length
of the content for a regular file). -/
structure MagicFile where
  filename : String
  archive : ZipState
  bytes : List Nat

/-- A registry entry as assembled at lines 130-142 (same field order). -/
structure Entry where
  name : String
  version : String
  author : String
  date_created : String
  parameters : Json
  compatible_versions : Json
  size_bytes : Nat
  sha256 : String
  download_url : String
  build_id : String
  build_type : String

/-- `infos.get(k, default)` for the fields the entry uses as strings.
The claims only exercise string-valued metadata here; a non-string value
would propagate into the entry in Python and then crash `save_registry`'s
sort key comparison, a regime outside every claim. -/
def getStrD (infos : Json) (k : String) (d : String) : String :=
  match pyGet infos k with
  | some (.str s) => s
  | some _ => d
  | none => d

/-- `infos.get("date_created") or datetime.utcnow().strftime("%Y-%m-%d")`
with the current date held as a parameter (falsy values fall through). -/
def getDateCreated (infos : Json) (today : String) : String :=
  match pyGet infos "date_created" with
  | some (.str s) => if s = "" then today else s
  | _ => today

/-- Process one candidate file into an entry (lines 96-142); `none` when the
filename does not match the pattern or the metadata read raises. -/
def entryOf (cfg : Config) (today : String) (f : MagicFile) : Option Entry :=
  match parseFilename f.filename with
  | none => none
  | some nb =>
    match read_model_infos f.archive with
    | Except.error _ => none
    | Except.ok infos =>
      some {
        name := getStrD infos "name" nb.1
        version := getStrD infos "version" "unknown"
        author := getStrD infos "author" "unknown"
        date_created := getDateCreated infos today
        parameters := pyGetD infos "parameters" (.obj [])
        compatible_versions := normalizeCompat infos
        size_bytes := f.bytes.length
        sha256 := sha256_file f.bytes
        download_url := downloadUrl cfg f.filename
        build_id := nb.2
        build_type := parse_build_type nb.2
      }

/-! ### Registry Store: typed `upsert_model` and `save_registry` sort -/

/-- The identity key `(name, version)`. -/
def key (e : Entry) : String × String := (e.name, e.version)

/-- `upsert_model` (lines 74-82): replace the first entry with the same
`(name, version)` in place, else append. -/
def upsert_model : List Entry → Entry → List Entry
  | [], e => [e]
  | m :: rest, e => if key m = key e then e :: rest else m :: upsert_model rest e

/-- The sort key of line 70: ascending lexicographic `(name, version)`. -/
def keyLe (a b : Entry) : Prop :=
  a.name < b.name ∨ (a.name = b.name ∧ a.version ≤ b.version)

instance : DecidableRel keyLe := fun a b => by
  unfold keyLe
  infer_instance

/-- `registry["models"].sort(key=..., reverse=False)`: Python's sort is the
stable ascending sort by this key; insertion sort with a total preorder is
the same function (stable sorts by the same key agree pointwise). -/
def sortRegistry (R : List Entry) : List Entry := List.insertionSort keyLe R

/-- One iteration of the `for magic_path in magic_files` loop: skipped files
leave the registry alone, otherwise the assembled entry is upserted. -/
def processOne (cfg : Config) (today : String) (R : List Entry) (f : MagicFile) : List Entry :=
  match entryOf cfg today f with
  | none => R
  | some e => upsert_model R e

/-- The value saved by one full pipeline pass over `files` starting from the
loaded catalog `R`: process every candidate, then sort (inside
`save_registry`). -/
def runPipeline (cfg : Config) (today : String) (R : List Entry) (files : List MagicFile) : List Entry :=
  sortRegistry (files.foldl (processOne cfg today) R)

/-- Outcome of one `main()` invocation: the exit code and the list of file
writes performed (`save_registry` calls with the value written). -/
structure RunResult where
  exitCode : Nat
  writes : List (List Entry)

/-- `main` (lines 84-149): no directory or no `.magic` file means an early
`return 0` before any write; otherwise the loop runs and `save_registry`
writes exactly once. -/
def mainRun (cfg : Config) (today : String) (dirExists : Bool) (files : List MagicFile)
    (reg0 : List Entry) : RunResult :=
  if dirExists = false then ⟨0, []⟩
  else if files.isEmpty then ⟨0, []⟩
  else ⟨0, [runPipeline cfg today reg0 files]⟩

/-! ### `save_registry` serialization (lines 68-72)

`json.dump(registry, f, indent=2, ensure_ascii=False)` — a deterministic
pretty-printer with two-space indentation.  The saved document is
`\x7b"models": [...entries in sorted order...]\x7d`; the entry dicts keep
the construction order of lines 130-142. -/

def jsonEscapeChar (c : Char) : List Char :=
  if c = '"' then ['\\', '"']
  else if c = '\\' then ['\\', '\\']
  else if c = '\n' then ['\\', 'n']
  else if c = '\t' then ['\\', 't']
  else if c = '\r' then ['\\', 'r']
  else if c.toNat < 32 then ['\\', 'u', '0', '0', hexDig (c.toNat / 16), hexDig (c.toNat % 16)]
  else [c]

def encStr (s : String) : List Char :=
  '"' :: (s.data.flatMap jsonEscapeChar ++ ['"'])

def indentSp (n : Nat) : List Char := List.replicate n ' '

mutual

def encJson : Nat → Json → List Char
  | _, .null => ['n', 'u', 'l', 'l']
  | _, .bool b => if b then ['t', 'r', 'u', 'e'] else ['f', 'a', 'l', 's', 'e']
  | _, .num n => (toString n).data
  | _, .str s => encStr s
  | _, .arr [] => ['[', ']']
  | ind, .arr (x :: xs) =>
    '[' :: '\n' :: (indentSp (ind + 2) ++ encJson (ind + 2) x ++ encArrRest (ind + 2) xs
      ++ '\n' :: (indentSp ind ++ [']']))
  | _, .obj [] => [lbrace, rbrace]
  | ind, .obj (kv :: kvs) =>
    lbrace :: '\n' :: (indentSp (ind + 2) ++ encStr kv.1 ++ ':' :: ' ' :: encJson (ind + 2) kv.2
      ++ encObjRest (ind + 2) kvs ++ '\n' :: (indentSp ind ++ [rbrace]))

def encArrRest : Nat → List Json → List Char
  | _, [] => []
  | ind, x :: xs => ',' :: '\n' :: (indentSp ind ++ encJson ind x ++ encArrRest ind xs)

def encObjRest : Nat → List (String × Json) → List Char
  | _, [] => []
  | ind, kv :: kvs =>
    ',' :: '\n' :: (indentSp ind ++ encStr kv.1 ++ ':' :: ' ' :: encJson ind kv.2
      ++ encObjRest ind kvs)

end

/-- The JSON object a registry entry serializes to (field order of lines
130-142). -/
def entryJson (e : Entry) : Json :=
  .obj [("name", .str e.name), ("version", .str e.version), ("author", .str e.author),
        ("date_created", .str e.date_created), ("parameters", e.parameters),
        ("compatible_versions", e.compatible_versions), ("size_bytes", .num e.size_bytes),
        ("sha256", .str e.sha256), ("download_url", .str e.download_url),
        ("build_id", .str e.build_id), ("build_type", .str e.build_type)]

/-- The exact text written to `magic/manifest.json` for a catalog value. -/
def encodeRegistry (R : List Entry) : String :=
  String.mk (encJson 0 (.obj [("models", .arr (R.map entryJson))]))

/-- First entry with a given identity key (position of the `upsert_model`
replacement). -/
def lookupKey (k : String × String) : List Entry → Option Entry
  | [] => none
  | e :: R => if key e = k then some e else lookupKey k R

/-- Last entry with a given identity key in a batch (the value that wins a
fold of upserts). -/
def lastVal (k : String × String) : List Entry → Option Entry
  | [] => none
  | e :: es =>
    match lastVal k es with
    | some v => some v
    | none => if key e = k then some e else none

instance : IsTotal Entry keyLe :=
  ⟨by
    intro a b
    rcases lt_trichotomy a.name b.name with h | h | h
    · exact Or.inl (Or.inl h)
    · rcases le_total a.version b.version with hv | hv
      · exact Or.inl (Or.inr ⟨h, hv⟩)
      · exact Or.inr (Or.inr ⟨h.symm, hv⟩)
    · exact Or.inr (Or.inl h)⟩

instance : IsTrans Entry keyLe :=
  ⟨by
    intro a b c hab hbc
    rcases hab with h1 | ⟨h1, v1⟩
    · rcases hbc with h2 | ⟨h2, v2⟩
      · exact Or.inl (h1.trans h2)
      · exact Or.inl (by rw [← h2]; exact h1)
    · rcases hbc with h2 | ⟨h2, v2⟩
      · exact Or.inl (by rw [h1]; exact h2)
      · exact Or.inr ⟨h1.trans h2, v1.trans v2⟩⟩

/-- The example configuration for the concrete C8 scenario (defaults of
lines 5-10: no dev server configured). -/
def exampleCfg : Config := ⟨"owner", "repo", "main", "", "8000"⟩

/-- `mymodel_X7B.magic` with embedded metadata `\x7b"version": "2.1"\x7d`. -/
def exampleFile : MagicFile :=
  ⟨"mymodel_X7B.magic", .entries [("metadata.json", "\x7b\"version\": \"2.1\"\x7d")], [1, 2, 3]⟩

/-- Witness entries for C1: two distinct keys, then an upsert hitting the
second key replaces it wholesale. -/
def entryA : Entry :=
  ⟨"alpha", "1.0", "ann", "2024-01-01", .obj [], .arr [], 3, "aa", "u1", "K7A", "stable"⟩

def entryB : Entry :=
  ⟨"beta", "2.0", "bob", "2024-02-02", .obj [], .arr [], 4, "bb", "u2", "Q2B", "rc"⟩

def entryB2 : Entry :=
  ⟨"beta", "2.0", "carol", "2024-03-03", .obj [("p", .num 1)], .arr [.str "1.0"], 9, "cc", "u3",
    "Z9C", "beta"⟩

/-! ## Theorems -/

mutual

theorem beqJ_refl : ∀ j : Json, beqJ j j = true
  | .null => rfl
  | .bool b => by simp [beqJ]
  | .num n => by simp [beqJ]
  | .str s => by simp [beqJ]
  | .arr as => by simpa [beqJ] using beqJA_refl as
  | .obj as => by simpa [beqJ] using beqJO_refl as

theorem beqJA_refl : ∀ l : List Json, beqJA l l = true
  | [] => rfl
  | a :: as => by simp [beqJA, beqJ_refl a, beqJA_refl as]

theorem beqJO_refl : ∀ l : List (String × Json), beqJO l l = true
  | [] => rfl
  | (k, v) :: as => by simp [beqJO, beqJ_refl v, beqJO_refl as]

end

/-- Claim C3: `load_registry` never propagates a failure: for every failure
state of the registry file — absent, present but stripping to empty,
present but not parseable as JSON, or any other I/O error — it returns the
empty catalog, and it emits a warning in every such case except absence. -/
theorem load_registry_recovers (fs : FileState)
    (h : ∀ s, fs = FileState.present s → pyStrip s = "" ∨ jsonParse (pyStrip s) = none) :
    (load_registry fs).1 = emptyRegistry ∧
      ((load_registry fs).2 = true ↔ fs ≠ FileState.absent) := by
  cases fs with
  | absent => exact ⟨rfl, by simp [load_registry]⟩
  | ioError => exact ⟨rfl, by simp [load_registry]⟩
  | present s =>
    rcases h s rfl with hs | hs
    · simp [load_registry, hs]
    · by_cases hempty : pyStrip s = ""
      · simp [load_registry, hempty]
      · simp [load_registry, hempty, hs]

/-- Witness for C3 at the concrete corrupted content of the spec's example. -/
theorem load_registry_recovers_w :
    (load_registry (FileState.present ("\x7bnot json"))).1 = emptyRegistry ∧
      ((load_registry (FileState.present ("\x7bnot json"))).2 = true ↔
        FileState.present ("\x7bnot json") ≠ FileState.absent) :=
  load_registry_recovers (FileState.present ("\x7bnot json"))
    (fun s hs => by
      cases hs
      exact Or.inr rfl)

/-- Claim C10: `load_registry` does no shape validation — well-formed JSON of
the wrong shape (an array, a number, an object without "models") is returned
unchanged, and the subsequent `upsert_model` or `save_registry` raises
(TypeError / KeyError / AttributeError). -/
theorem load_registry_no_shape_validation :
    (load_registry (FileState.present ("[1, 2]"))).1 = Json.arr [Json.num 1, Json.num 2] ∧
    (∀ e, pyUpsertModel (Json.arr [Json.num 1, Json.num 2]) e = Except.error PyExc.typeError) ∧
    pySaveModelsAccess (Json.arr [Json.num 1, Json.num 2]) = Except.error PyExc.typeError ∧
    (load_registry (FileState.present ("7"))).1 = Json.num 7 ∧
    (∀ e, pyUpsertModel (Json.obj [("foo", Json.num 1)]) e = Except.error PyExc.keyError) ∧
    (∀ e, pyUpsertModel (Json.obj [("models", Json.str "nope")]) e =
      Except.error PyExc.attributeError) :=
  ⟨rfl, fun _ => rfl, rfl, rfl, fun _ => rfl, fun _ => rfl⟩

/-- Claim C5 (code bug): the guard of lines 109-113 can never fire, because
`version` is itself `infos.get("version", "unknown")`, so
`infos["version"] != version` compares the metadata version with itself;
the advertised filename/metadata version-mismatch warning is dead code. -/
theorem version_mismatch_warning_never_fires (infos : Json) :
    versionMismatchWarn infos = false := by
  unfold versionMismatchWarn pyGetD
  cases hv : pyGet infos "version" with
  | none => simp
  | some v => simp [beqJ_refl v]

/-- Claim C4 counterexample, refuting both clauses the amendment changes:
metadata providing the single *empty* string for `compatible_versions`
normalizes to `[]`, not to `[""]` as the claim's string case requires (the
`or`-chain drops falsy values); and metadata providing the truthy
non-string non-sequence `7` keeps `7` as-is, not `[]` as the claim's
"otherwise" case requires. -/
theorem normalizeCompat_cex :
    (normalizeCompat (Json.obj [("compatible_versions", Json.str "")]) = Json.arr [] ∧
      Json.arr [] ≠ Json.arr [Json.str ""]) ∧
    (normalizeCompat (Json.obj [("compatible_versions", Json.num 7)]) = Json.num 7 ∧
      Json.num 7 ≠ Json.arr []) :=
  ⟨⟨rfl, by simp⟩, ⟨rfl, by simp⟩⟩

/-- Claim C4 (amended): the source value is the first Python-truthy of
`compatible_versions`, then `compat`, else `[]`; a (necessarily non-empty)
string wraps into a one-element sequence, and any other truthy value — a
non-empty sequence, but also any other truthy non-sequence — is kept as-is.
The claim's three examples hold. -/
theorem normalizeCompat_amended (infos : Json) :
    (∀ s, s ≠ "" → pyGetD infos "compatible_versions" .null = Json.str s →
      normalizeCompat infos = Json.arr [Json.str s]) ∧
    (∀ xs, xs ≠ [] → pyGetD infos "compatible_versions" .null = Json.arr xs →
      normalizeCompat infos = Json.arr xs) ∧
    (pyTruthy (pyGetD infos "compatible_versions" .null) = false →
      pyTruthy (pyGetD infos "compat" .null) = false →
      normalizeCompat infos = Json.arr []) ∧
    (pyTruthy (pyGetD infos "compatible_versions" .null) = false →
      ∀ s, s ≠ "" → pyGetD infos "compat" .null = Json.str s →
      normalizeCompat infos = Json.arr [Json.str s]) ∧
    (pyTruthy (pyGetD infos "compatible_versions" .null) = false →
      pyTruthy (pyGetD infos "compat" .null) = true →
      normalizeCompat infos =
        match pyGetD infos "compat" .null with
        | Json.str s => Json.arr [Json.str s]
        | x => x) ∧
    (pyTruthy (pyGetD infos "compatible_versions" .null) = true →
      normalizeCompat infos =
        match pyGetD infos "compatible_versions" .null with
        | Json.str s => Json.arr [Json.str s]
        | x => x) := by
  refine ⟨?_, ?_, ?_, ?_, ?_, ?_⟩
  · intro s hs hcv
    unfold normalizeCompat pyOrJ
    rw [hcv]
    simp [pyTruthy, hs]
  · intro xs hxs hcv
    unfold normalizeCompat pyOrJ
    rw [hcv]
    simp [pyTruthy, hxs]
  · intro h1 h2
    unfold normalizeCompat pyOrJ
    rw [h1, h2]
    simp
  · intro h1 s hs hcompat
    unfold normalizeCompat pyOrJ
    rw [h1, hcompat]
    simp [pyTruthy, hs]
  · intro h1 h2
    unfold normalizeCompat pyOrJ
    rw [h1, h2]
    simp
  · intro h1
    unfold normalizeCompat pyOrJ
    rw [h1]
    simp

/-- Witness for the amended C4 at the claim's three examples plus the
`compat`-fallback cases (a string and a truthy sequence). -/
theorem normalizeCompat_amended_w :
    normalizeCompat (Json.obj [("compatible_versions", Json.str "1.0")]) =
      Json.arr [Json.str "1.0"] ∧
    normalizeCompat (Json.obj [("compatible_versions",
        Json.arr [Json.str "1.0", Json.str "1.1"])]) =
      Json.arr [Json.str "1.0", Json.str "1.1"] ∧
    normalizeCompat (Json.obj []) = Json.arr [] ∧
    normalizeCompat (Json.obj [("compat", Json.str "2.0")]) = Json.arr [Json.str "2.0"] ∧
    normalizeCompat (Json.obj [("compat", Json.arr [Json.str "1.0", Json.str "1.1"])]) =
      Json.arr [Json.str "1.0", Json.str "1.1"] :=
  ⟨(normalizeCompat_amended (Json.obj [("compatible_versions", Json.str "1.0")])).1
      "1.0" (by decide) rfl,
   (normalizeCompat_amended (Json.obj [("compatible_versions",
        Json.arr [Json.str "1.0", Json.str "1.1"])])).2.1
      [Json.str "1.0", Json.str "1.1"] (by simp) rfl,
   (normalizeCompat_amended (Json.obj [])).2.2.1 rfl rfl,
   (normalizeCompat_amended (Json.obj [("compat", Json.str "2.0")])).2.2.2.1
      rfl "2.0" (by decide) rfl,
   (normalizeCompat_amended
      (Json.obj [("compat", Json.arr [Json.str "1.0", Json.str "1.1"])])).2.2.2.2.1
      rfl rfl⟩

/-- Claim C6: on a normally completing invocation the registry file is
written exactly once iff the directory exists and the scan found at least
one candidate file; otherwise there is no write at all (the pre-existing
file is untouched), and the exit code is 0 in every case. -/
theorem mainRun_write_discipline (cfg : Config) (today : String) (dirExists : Bool)
    (files : List MagicFile) (reg0 : List Entry) :
    (mainRun cfg today dirExists files reg0).exitCode = 0 ∧
    ((mainRun cfg today dirExists files reg0).writes.length = 1 ↔
      dirExists = true ∧ files ≠ []) ∧
    ((mainRun cfg today dirExists files reg0).writes.length ≠ 1 →
      (mainRun cfg today dirExists files reg0).writes = []) := by
  unfold mainRun
  cases dirExists with
  | false => simp
  | true =>
    by_cases hf : files.isEmpty
    · have hnil : files = [] := List.isEmpty_iff.mp hf
      subst hnil
      simp
    · have hne : files ≠ [] := by simpa [List.isEmpty_iff] using hf
      simp [hf, hne]

/-- `find?` returns the first match when everything before it fails the
predicate. -/
theorem find?_first_match {α : Type} (p : α → Bool) (front : List α) (x : α) (back : List α)
    (hf : ∀ a ∈ front, p a = false) (hx : p x = true) :
    (front ++ x :: back).find? p = some x := by
  induction front with
  | nil => simp [List.find?_cons_of_pos, hx]
  | cons a as ih =>
    have ha : p a = false := hf a (by simp)
    rw [List.cons_append, List.find?_cons_of_neg _ (by simp [ha])]
    exact ih (fun b hb => hf b (by simp [hb]))

/-- Claim C7: the archive metadata reader fails with "malformed archive" on a
container that does not open as a zip; with "metadata not found" when no
entry name ends (case-insensitively) in `metadata.json`; and otherwise
selects exactly the first matching entry in enumeration order and parses
only its content — well-formed JSON is returned, anything else is
"malformed metadata", and later matching entries are never consulted. -/
theorem read_model_infos_spec :
    read_model_infos ZipState.badZip = Except.error ReadErr.badZip ∧
    (∀ l, (∀ p ∈ l, isMetadataName p.1 = false) →
      read_model_infos (ZipState.entries l) = Except.error ReadErr.noMetadata) ∧
    (∀ front nm c back, (∀ p ∈ front, isMetadataName p.1 = false) →
      isMetadataName nm = true →
      read_model_infos (ZipState.entries (front ++ (nm, c) :: back)) =
        match jsonParse c with
        | some j => Except.ok j
        | none => Except.error ReadErr.badJson) := by
  refine ⟨rfl, ?_, ?_⟩
  · intro l hl
    have hf : List.find? (fun p => isMetadataName p.1) l = none :=
      List.find?_eq_none.mpr (fun p hp => by simp [hl p hp])
    simp [read_model_infos, hf]
  · intro front nm c back hfront hnm
    have hf := find?_first_match (fun p => isMetadataName p.1) front (nm, c) back hfront hnm
    simp [read_model_infos, hf]

/-- Witness for C7: a later `metadata.json` entry is ignored once an earlier
(case-insensitive) match exists, and a matchless archive reports
"metadata not found". -/
theorem read_model_infos_spec_w :
    read_model_infos (ZipState.entries
        [("readme.txt", "hello"), ("sub/MetaData.JSON", "\x7b\"a\": 1\x7d"),
         ("metadata.json", "not json at all")]) = Except.ok (Json.obj [("a", Json.num 1)]) ∧
    read_model_infos (ZipState.entries [("readme.txt", "x")]) =
      Except.error ReadErr.noMetadata := by
  constructor
  · have h := (read_model_infos_spec).2.2 [("readme.txt", "hello")] "sub/MetaData.JSON"
      ("\x7b\"a\": 1\x7d") [("metadata.json", "not json at all")]
      (fun p hp => by
        rw [List.mem_singleton] at hp
        subst hp
        rfl)
      rfl
    exact h
  · exact (read_model_infos_spec).2.1 [("readme.txt", "x")]
      (fun p hp => by
        rw [List.mem_singleton] at hp
        subst hp
        rfl)

/-- `String.push` appends one character to the underlying character list. -/
theorem getLast?_data_push (s : String) (c : Char) : (s.push c).data.getLast? = some c := by
  cases s with
  | mk data => simp [String.push]

/-- Claim C8: the build-type classifier is total on strings and maps the
final character, upper-cased, through A→stable, B→rc, C→beta, D→alpha,
F→debug, with the empty string and every other final character giving
"unknown"; and the file `mymodel_X7B.magic` with metadata
`\x7b"version": "2.1"\x7d` produces an entry with build id `X7B`, build type
`rc` and version `2.1`. -/
theorem parse_build_type_table :
    parse_build_type "" = "unknown" ∧
    (∀ s : String,
      parse_build_type (s.push 'a') = "stable" ∧ parse_build_type (s.push 'A') = "stable" ∧
      parse_build_type (s.push 'b') = "rc" ∧ parse_build_type (s.push 'B') = "rc" ∧
      parse_build_type (s.push 'c') = "beta" ∧ parse_build_type (s.push 'C') = "beta" ∧
      parse_build_type (s.push 'd') = "alpha" ∧ parse_build_type (s.push 'D') = "alpha" ∧
      parse_build_type (s.push 'f') = "debug" ∧ parse_build_type (s.push 'F') = "debug") ∧
    (∀ (s : String) (c : Char), c.toUpper ∉ (['A', 'B', 'C', 'D', 'F'] : List Char) →
      parse_build_type (s.push c) = "unknown") ∧
    ((entryOf exampleCfg ("2024-01-01") exampleFile).map
        (fun e => (e.build_id, e.build_type, e.version)) = some ("X7B", "rc", "2.1")) := by
  refine ⟨rfl, ?_, ?_, rfl⟩
  · intro s
    refine ⟨?_, ?_, ?_, ?_, ?_, ?_, ?_, ?_, ?_, ?_⟩ <;>
      simp [parse_build_type, getLast?_data_push] <;> rfl
  · intro s c hc
    have e1 : (c.toUpper == 'A') = false := beq_eq_false_iff_ne.mpr (fun h => hc (by simp [h]))
    have e2 : (c.toUpper == 'B') = false := beq_eq_false_iff_ne.mpr (fun h => hc (by simp [h]))
    have e3 : (c.toUpper == 'C') = false := beq_eq_false_iff_ne.mpr (fun h => hc (by simp [h]))
    have e4 : (c.toUpper == 'D') = false := beq_eq_false_iff_ne.mpr (fun h => hc (by simp [h]))
    have e5 : (c.toUpper == 'F') = false := beq_eq_false_iff_ne.mpr (fun h => hc (by simp [h]))
    simp [parse_build_type, getLast?_data_push, List.lookup, BUILD_MAP, e1, e2, e3, e4, e5]

/-- Witness for C8's catch-all case at a concrete non-table character. -/
theorem parse_build_type_table_w : parse_build_type (String.push "" 'z') = "unknown" :=
  (parse_build_type_table).2.2.1 "" 'z' (by decide)

/-- When no existing entry has the new entry's key, `upsert_model`
appends. -/
theorem upsert_model_append (R : List Entry) (e : Entry) (h : key e ∉ R.map key) :
    upsert_model R e = R ++ [e] := by
  induction R with
  | nil => rfl
  | cons m rest ih =>
    simp only [List.map_cons, List.mem_cons, not_or] at h
    have hne : ¬ key m = key e := fun hk => h.1 hk.symm
    simp [upsert_model, hne, ih h.2]

/-- `upsert_model` replaces the first entry carrying the key, leaving
everything before and after it untouched. -/
theorem upsert_model_replace (A : List Entry) (m : Entry) (B : List Entry) (e : Entry)
    (hm : key m = key e) (hA : key e ∉ A.map key) :
    upsert_model (A ++ m :: B) e = A ++ e :: B := by
  induction A with
  | nil => simp [upsert_model, hm]
  | cons a as ih =>
    simp only [List.map_cons, List.mem_cons, not_or] at hA
    have hne : ¬ key a = key e := fun hk => hA.1 hk.symm
    simp [upsert_model, hne, ih hA.2]

/-- Any key present in a list of entries marks a first occurrence. -/
theorem first_key_occurrence (R : List Entry) (k : String × String) (h : k ∈ R.map key) :
    ∃ A m B, R = A ++ m :: B ∧ key m = k ∧ k ∉ A.map key := by
  induction R with
  | nil => simp at h
  | cons a as ih =>
    by_cases ha : key a = k
    · exact ⟨[], a, as, rfl, ha, by simp⟩
    · have h' : k ∈ as.map key := by
        rcases List.mem_cons.mp h with h0 | h0
        · exact absurd h0.symm ha
        · exact h0
      obtain ⟨A, m, B, hR, hm, hA⟩ := ih h'
      refine ⟨a :: A, m, B, by simp [hR], hm, ?_⟩
      simp only [List.map_cons, List.mem_cons, not_or]
      exact ⟨fun hk => ha hk.symm, hA⟩

/-- Claim C1: on a catalog with at most one entry per `(name, version)` key,
`upsert_model` preserves that invariant; a new key is appended at the end,
and an existing key's entry is replaced wholesale in place — the stored
entry is exactly the new one and no other entry changes. -/
theorem upsert_model_key_stable (R : List Entry) (e : Entry) (h : (R.map key).Nodup) :
    ((upsert_model R e).map key).Nodup ∧
    (key e ∉ R.map key → upsert_model R e = R ++ [e]) ∧
    (∀ A m B, R = A ++ m :: B → key m = key e → key e ∉ A.map key →
      upsert_model R e = A ++ e :: B) := by
  refine ⟨?_, fun hn => upsert_model_append R e hn, ?_⟩
  · by_cases hmem : key e ∈ R.map key
    · obtain ⟨A, m, B, hR, hm, hA⟩ := first_key_occurrence R (key e) hmem
      rw [hR, upsert_model_replace A m B e hm hA]
      have : (A ++ e :: B).map key = (A ++ m :: B).map key := by
        simp [hm]
      rw [this, ← hR]
      exact h
    · rw [upsert_model_append R e hmem]
      simp only [List.map_append, List.map_cons, List.map_nil]
      rw [List.nodup_append]
      refine ⟨h, List.nodup_singleton _, ?_⟩
      intro k hk1 hk2
      rw [List.mem_singleton] at hk2
      subst hk2
      exact hmem hk1
  · intro A m B hR hm hA
    rw [hR]
    exact upsert_model_replace A m B e hm hA

/-- Witness for C1 at a concrete two-entry catalog: replacing the second
entry in place and preserving key uniqueness. -/
theorem upsert_model_key_stable_w :
    upsert_model [entryA, entryB] entryB2 = [entryA, entryB2] ∧
    ((upsert_model [entryA, entryB] entryB2).map key).Nodup :=
  have h := upsert_model_key_stable [entryA, entryB] entryB2 (by decide)
  ⟨h.2.2 [entryA] entryB [] rfl (by decide) (by decide), h.1⟩

theorem lookupKey_upsert (S : List Entry) (e : Entry) (k : String × String) :
    lookupKey k (upsert_model S e) = if key e = k then some e else lookupKey k S := by
  induction S with
  | nil => simp [upsert_model, lookupKey]
  | cons m R ih =>
    by_cases hme : key m = key e
    · simp only [upsert_model, if_pos hme, lookupKey]
      by_cases hek : key e = k
      · simp [hek]
      · rw [if_neg hek, if_neg hek, if_neg (by rw [hme]; exact hek)]
    · simp only [upsert_model, if_neg hme, lookupKey]
      by_cases hmk : key m = k
      · have hek : ¬ key e = k := fun h => hme (hmk.trans h.symm)
        rw [if_pos hmk, if_neg hek, if_pos hmk]
      · rw [if_neg hmk, ih, if_neg hmk]

theorem upsert_model_of_lookup_self (S : List Entry) (e : Entry)
    (h : lookupKey (key e) S = some e) : upsert_model S e = S := by
  induction S with
  | nil => simp [lookupKey] at h
  | cons m R ih =>
    simp only [lookupKey] at h
    by_cases hmk : key m = key e
    · rw [if_pos hmk] at h
      injection h with h
      simp [upsert_model, hmk, h]
    · rw [if_neg hmk] at h
      simp [upsert_model, hmk, ih h]

theorem upsert_model_absorb (S : List Entry) (e₁ e₂ : Entry) (h : key e₁ = key e₂) :
    upsert_model (upsert_model S e₁) e₂ = upsert_model S e₂ := by
  induction S with
  | nil => simp [upsert_model, h]
  | cons m R ih =>
    by_cases hm : key m = key e₁
    · simp [upsert_model, hm, h, hm.trans h]
    · have hm2 : ¬ key m = key e₂ := fun hh => hm (hh.trans h.symm)
      simp [upsert_model, hm, hm2, ih]

theorem upsert_model_comm (S : List Entry) (e₁ e₂ : Entry) (hne : key e₁ ≠ key e₂)
    (h1 : (lookupKey (key e₁) S).isSome = true)
    (h2 : (lookupKey (key e₂) S).isSome = true) :
    upsert_model (upsert_model S e₁) e₂ = upsert_model (upsert_model S e₂) e₁ := by
  induction S with
  | nil => simp [lookupKey] at h1
  | cons m R ih =>
    by_cases hm1 : key m = key e₁
    · have hm2 : ¬ key m = key e₂ := fun h => hne (hm1.symm.trans h)
      simp [upsert_model, hm1, hm2, hne]
    · by_cases hm2 : key m = key e₂
      · have hne2 : ¬ key e₂ = key e₁ := fun h => hne h.symm
        simp [upsert_model, hm1, hm2, hne2]
      · simp only [lookupKey, if_neg hm1] at h1
        simp only [lookupKey, if_neg hm2] at h2
        simp [upsert_model, hm1, hm2, ih h1 h2]

theorem lastVal_cons_of_isSome (es : List Entry) (e : Entry) (k : String × String)
    (h : (lastVal k es).isSome = true) : lastVal k (e :: es) = lastVal k es := by
  cases hlv : lastVal k es with
  | none => rw [hlv] at h; simp at h
  | some v => simp [lastVal, hlv]

theorem lastVal_isSome_of_mem (es : List Entry) (e : Entry) (h : e ∈ es) :
    (lastVal (key e) es).isSome = true := by
  induction es with
  | nil => simp at h
  | cons a es' ih =>
    rcases List.mem_cons.mp h with rfl | hmem
    · cases hlv : lastVal (key e) es' with
      | none => simp [lastVal, hlv]
      | some v => simp [lastVal, hlv]
    · rw [lastVal_cons_of_isSome es' a (key e) (ih hmem)]
      exact ih hmem

theorem lastVal_eq_none (es : List Entry) (k : String × String)
    (h : ∀ e ∈ es, key e ≠ k) : lastVal k es = none := by
  induction es with
  | nil => rfl
  | cons a es' ih =>
    have ha : ¬ key a = k := h a (by simp)
    simp [lastVal, ih (fun e he => h e (by simp [he])), ha]

theorem lookupKey_foldl_upsert (es : List Entry) (k : String × String) :
    ∀ S, lookupKey k (List.foldl upsert_model S es) =
      match lastVal k es with
      | some v => some v
      | none => lookupKey k S := by
  induction es with
  | nil => intro S; simp [lastVal]
  | cons e es' ih =>
    intro S
    rw [List.foldl_cons, ih]
    cases hlv : lastVal k es' with
    | some v => simp [lastVal, hlv]
    | none =>
      rw [lookupKey_upsert]
      simp only [lastVal, hlv]
      by_cases hek : key e = k
      · simp [hek]
      · simp [hek]

theorem foldl_upsert_absorbed (es : List Entry) :
    ∀ (S : List Entry) (e : Entry),
      (∀ e₁ ∈ es, (lookupKey (key e₁) S).isSome = true) →
      (lookupKey (key e) S).isSome = true →
      (∃ e₁ ∈ es, key e₁ = key e) →
      List.foldl upsert_model (upsert_model S e) es = List.foldl upsert_model S es := by
  induction es with
  | nil =>
    intro S e _ _ hex
    simp at hex
  | cons e₁ rest ih =>
    intro S e hall he hex
    by_cases h1 : key e₁ = key e
    · rw [List.foldl_cons, List.foldl_cons, upsert_model_absorb S e e₁ h1.symm]
    · have hex' : ∃ e₂ ∈ rest, key e₂ = key e := by
        rcases hex with ⟨e₂, he₂, hk⟩
        rcases List.mem_cons.mp he₂ with rfl | hmem
        · exact absurd hk h1
        · exact ⟨e₂, hmem, hk⟩
      rw [List.foldl_cons, List.foldl_cons,
        upsert_model_comm S e e₁ (fun h => h1 h.symm) he (hall e₁ (by simp))]
      apply ih (upsert_model S e₁) e
      · intro e₂ hm
        rw [lookupKey_upsert]
        by_cases hq : key e₁ = key e₂
        · simp [hq]
        · rw [if_neg hq]
          exact hall e₂ (by simp [hm])
      · rw [lookupKey_upsert]
        by_cases hq : key e₁ = key e
        · simp [hq]
        · rw [if_neg hq]
          exact he
      · exact hex'

theorem foldl_upsert_stable (es : List Entry) :
    ∀ T, (∀ e ∈ es, lookupKey (key e) T = lastVal (key e) es) →
      List.foldl upsert_model T es = T := by
  induction es with
  | nil => intro T _; rfl
  | cons e es' ih =>
    intro T h
    by_cases hmem : ∃ e₁ ∈ es', key e₁ = key e
    · have hall : ∀ e₁ ∈ es', (lookupKey (key e₁) T).isSome = true := by
        intro e₁ hm
        rw [h e₁ (by simp [hm]), lastVal_cons_of_isSome es' e (key e₁) (lastVal_isSome_of_mem es' e₁ hm)]
        exact lastVal_isSome_of_mem es' e₁ hm
      have he : (lookupKey (key e) T).isSome = true := by
        rw [h e (by simp)]
        exact lastVal_isSome_of_mem (e :: es') e (by simp)
      rw [List.foldl_cons, foldl_upsert_absorbed es' T e hall he hmem]
      apply ih
      intro e₁ hm
      rw [h e₁ (by simp [hm])]
      exact lastVal_cons_of_isSome es' e (key e₁) (lastVal_isSome_of_mem es' e₁ hm)
    · push_neg at hmem
      have hnone : lastVal (key e) es' = none := lastVal_eq_none es' (key e) hmem
      have hT : lookupKey (key e) T = some e := by
        rw [h e (by simp)]
        simp [lastVal, hnone]
      rw [List.foldl_cons, upsert_model_of_lookup_self T e hT]
      apply ih
      intro e₁ hm
      rw [h e₁ (by simp [hm])]
      exact lastVal_cons_of_isSome es' e (key e₁) (lastVal_isSome_of_mem es' e₁ hm)

theorem keyLe_of_key_eq {a b : Entry} (h : key a = key b) : keyLe a b := by
  have h1 : a.name = b.name := congrArg Prod.fst h
  have h2 : a.version = b.version := congrArg Prod.snd h
  exact Or.inr ⟨h1, le_of_eq h2⟩

theorem key_ne_of_not_keyLe {x y : Entry} (h : ¬ keyLe x y) : key y ≠ key x :=
  fun he => h (keyLe_of_key_eq he.symm)

/-- Insertion by `orderedInsert` never passes an element with the same key
(it stops at the first `y` with `x ≼ y`, and everything it passes is
strictly below `x`), so the first entry found for each key is unchanged. -/
theorem lookupKey_orderedInsert (x : Entry) (L : List Entry) (k : String × String) :
    lookupKey k (List.orderedInsert keyLe x L) =
      if key x = k then some x else lookupKey k L := by
  induction L with
  | nil => simp [List.orderedInsert, lookupKey]
  | cons y L' ih =>
    by_cases hxy : keyLe x y
    · simp [List.orderedInsert, hxy, lookupKey]
    · have hne : key y ≠ key x := key_ne_of_not_keyLe hxy
      simp only [List.orderedInsert, if_neg hxy, lookupKey]
      by_cases hyk : key y = k
      · have hxk : ¬ key x = k := fun h => hne (hyk.trans h.symm)
        simp [hyk, hxk]
      · simp [hyk, ih]

/-- The registry sort is stable: it does not change which entry is the first
carrier of any identity key. -/
theorem lookupKey_sortRegistry (R : List Entry) (k : String × String) :
    lookupKey k (sortRegistry R) = lookupKey k R := by
  induction R with
  | nil => rfl
  | cons a R' ih =>
    unfold sortRegistry at *
    rw [List.insertionSort, lookupKey_orderedInsert, ih]
    simp [lookupKey]

theorem sortRegistry_idem (R : List Entry) : sortRegistry (sortRegistry R) = sortRegistry R :=
  List.Sorted.insertionSort_eq (List.sorted_insertionSort keyLe R)

/-- The per-file loop is a fold of upserts over the entries of the
non-skipped files. -/
theorem foldl_processOne_eq (cfg : Config) (today : String) (files : List MagicFile) :
    ∀ R, files.foldl (processOne cfg today) R =
      List.foldl upsert_model R (files.filterMap (entryOf cfg today)) := by
  induction files with
  | nil => intro R; rfl
  | cons f fs ih =>
    intro R
    rw [List.foldl_cons, List.filterMap_cons]
    cases he : entryOf cfg today f with
    | none => simp only [processOne, he]; exact ih R
    | some e => simp only [processOne, he, List.foldl_cons]; exact ih (upsert_model R e)

/-- Claim C2: running the full pipeline (load, scan, upsert each candidate,
save) a second time over an unchanged candidate list and the registry value
produced by the first run yields the identical registry value — and hence a
byte-for-byte identical serialized registry file — provided the current UTC
date used for defaulted `date_created` is held fixed.  (The second run's
load of the saved file is modelled by the saved value itself: `json.dump`
followed by `json.loads` round-trips these values.) -/
theorem pipeline_idempotent (cfg : Config) (today : String) (R : List Entry)
    (files : List MagicFile) :
    runPipeline cfg today (runPipeline cfg today R files) files =
      runPipeline cfg today R files ∧
    encodeRegistry (runPipeline cfg today (runPipeline cfg today R files) files) =
      encodeRegistry (runPipeline cfg today R files) := by
  have main : runPipeline cfg today (runPipeline cfg today R files) files =
      runPipeline cfg today R files := by
    unfold runPipeline
    rw [foldl_processOne_eq, foldl_processOne_eq]
    have hstable :
        List.foldl upsert_model
          (sortRegistry (List.foldl upsert_model R (files.filterMap (entryOf cfg today))))
          (files.filterMap (entryOf cfg today)) =
        sortRegistry (List.foldl upsert_model R (files.filterMap (entryOf cfg today))) := by
      apply foldl_upsert_stable
      intro e he
      rw [lookupKey_sortRegistry, lookupKey_foldl_upsert]
      obtain ⟨v, hv⟩ := Option.isSome_iff_exists.mp
        (lastVal_isSome_of_mem (files.filterMap (entryOf cfg today)) e he)
      rw [hv]
    rw [hstable, sortRegistry_idem]
  exact ⟨main, by rw [main]⟩

/-- Folding list concatenation over the chunks is joining them. -/
theorem foldl_append_eq_join (L : List (List Nat)) :
    ∀ acc : List Nat, L.foldl (fun a b => a ++ b) acc = acc ++ L.flatten := by
  induction L with
  | nil => intro acc; simp
  | cons x xs ih =>
    intro acc
    simp only [List.foldl_cons, List.flatten_cons, ih (acc ++ x), List.append_assoc]

/-- Reading a file in maximal 1 MiB chunks yields exactly the file's bytes,
in order. -/
theorem join_chunks1M (l : List Nat) : (chunks1M l).flatten = l := by
  have H : ∀ (n : Nat) (l : List Nat), l.length ≤ n → (chunks1M l).flatten = l := by
    intro n
    induction n with
    | zero =>
      intro l hl
      have hnil : l = [] := List.length_eq_zero.mp (Nat.le_zero.mp hl)
      subst hnil
      rw [chunks1M]
      simp
    | succ n ih =>
      intro l hl
      rw [chunks1M]
      by_cases he : l.isEmpty
      · rw [dif_pos he, List.isEmpty_iff.mp he]
        rfl
      · rw [dif_neg he]
        have hne : l ≠ [] := fun h => he (by simp [h])
        have hlen : 0 < l.length := List.length_pos.mpr hne
        rw [List.flatten_cons, ih (l.drop 1048576) (by simp only [List.length_drop]; omega)]
        exact List.take_append_drop 1048576 l
  exact H l.length l le_rfl

/-- The streamed digest is the one-pass digest: the chunks feed exactly the
file's bytes into the hash. -/
theorem sha256_file_eq_hex (content : List Nat) : sha256_file content = sha256hex content := by
  unfold sha256_file
  rw [foldl_append_eq_join, List.nil_append, join_chunks1M]

theorem length_hexData (bs : List Nat) :
    (bs.flatMap (fun b => [hexDig (b / 16 % 16), hexDig (b % 16)])).length = 2 * bs.length := by
  induction bs with
  | nil => rfl
  | cons b bs ih =>
    simp only [List.flatMap_cons, List.length_append, ih, List.length_cons,
      List.length_nil]
    omega

theorem length_sha256bytes (msg : List Nat) : (sha256bytes msg).length = 32 := by
  simp [sha256bytes, wordBE]

theorem hexDig_mem_hexChars (n : Nat) : hexDig (n % 16) ∈ hexChars := by
  have h : n % 16 < 16 := Nat.mod_lt _ (by norm_num)
  generalize n % 16 = m at h
  interval_cases m <;> decide

/-- Claim C9: the checksum computed by streaming the file in fixed-size
1 MiB chunks and folding each chunk into the hash equals the SHA-256 digest
of the full byte content computed in one pass; the rendering is a
64-character lowercase-hex string; and every assembled entry's `sha256`
field is exactly that digest of the file's bytes. -/
theorem sha256_stream_matches_one_pass :
    (∀ content : List Nat, sha256_file content = sha256hex content) ∧
    (∀ content : List Nat, (sha256hex content).length = 64 ∧
      ((sha256hex content).data.all (fun c => decide (c ∈ hexChars))) = true) ∧
    (∀ (cfg : Config) (today : String) (f : MagicFile),
      ((entryOf cfg today f).map Entry.sha256).getD (sha256hex f.bytes) =
        sha256hex f.bytes) := by
  refine ⟨sha256_file_eq_hex, ?_, ?_⟩
  · intro content
    constructor
    · show (String.mk ((sha256bytes content).flatMap
        (fun b => [hexDig (b / 16 % 16), hexDig (b % 16)]))).length = 64
      simp only [String.length, length_hexData, length_sha256bytes]
    · rw [List.all_eq_true]
      intro c hc
      have hc' : c ∈ (sha256bytes content).flatMap
          (fun b => [hexDig (b / 16 % 16), hexDig (b % 16)]) := hc
      rw [List.mem_flatMap] at hc'
      obtain ⟨b, hb, hcb⟩ := hc'
      simp only [List.mem_cons, List.not_mem_nil, or_false] at hcb
      rcases hcb with rfl | rfl
      · exact decide_eq_true (hexDig_mem_hexChars (b / 16))
      · exact decide_eq_true (hexDig_mem_hexChars b)
  · intro cfg today f
    unfold entryOf
    cases parseFilename f.filename with
    | none => rfl
    | some nb =>
      cases read_model_infos f.archive with
      | error err => rfl
      | ok infos =>
        show sha256_file f.bytes = sha256hex f.bytes
        exact sha256_file_eq_hex f.bytes
